import Mathlib

/-!
Verification of the annotation-region detection and merging engine of
`extracting_highlights_images.py`.

Rectangles are modelled as integer 4-tuples, matching the Python tuples:
either `(x, y, w, h)` (the input/output format of `merge_nearby_rectangles`
and of the colour-detection candidates) or `(x1, y1, x2, y2)` corner form
(the internal format of the merging loop and of annotation rects).

The iterative `while changed` absorption loop of `merge_nearby_rectangles`
is embedded with an explicit fuel argument (`rem.length + 1` passes always
suffice, since a pass that changes anything strictly shrinks the unclaimed
list); adequacy of the fuel is proved below, so the embedding computes the
same fixed point as the source loop.

The pixel-level parts performed by OpenCV (HSV conversion, `inRange`,
`findContours`, `contourArea`, `boundingRect`) are external library calls;
the per-category candidate rectangle lists they produce enter
`extract_by_color_detection` as parameters, exactly at the point where the
source code has computed `yellow_rects` / `red_rects`.
-/

/-- Integer rectangle 4-tuple, as in the Python source. -/
abbrev I4 : Type := Int × Int × Int × Int

/-- `rectangles_should_merge(rect1, rect2, horizontal_threshold, vertical_threshold)`:
tolerant overlap test on corner-form rectangles. -/
def rectangles_should_merge (rect1 rect2 : I4)
    (horizontal_threshold vertical_threshold : Int) : Bool :=
  let (x1_1, y1_1, x2_1, y2_1) := rect1
  let (x1_2, y1_2, x2_2, y2_2) := rect2
  let h_overlap := !(decide (x2_1 < x1_2 - horizontal_threshold) ||
                     decide (x2_2 < x1_1 - horizontal_threshold))
  let v_overlap := !(decide (y2_1 < y1_2 - vertical_threshold) ||
                     decide (y2_2 < y1_1 - vertical_threshold))
  h_overlap && v_overlap

/-- `rectangles_overlap(rect1, rect2)`: overlap test on `(x, y, w, h)` rectangles,
used to recompute `individual_regions` post hoc. -/
def rectangles_overlap (rect1 rect2 : I4) : Bool :=
  let (x1, y1, w1, h1) := rect1
  let (x2, y2, w2, h2) := rect2
  !(decide (x1 + w1 < x2) || decide (x2 + w2 < x1) ||
    decide (y1 + h1 < y2) || decide (y2 + h2 < y1))

/-- `(x, y, w, h) -> (x, y, x + w, y + h)`: the corner-form conversion at the
top of `merge_nearby_rectangles`. -/
def to_corners (r : I4) : I4 :=
  (r.1, r.2.1, r.1 + r.2.2.1, r.2.1 + r.2.2.2)

/-- One full scan of the inner `for j, rect2 in enumerate(rects)` loop:
every still-unclaimed rectangle that merges with any rectangle of the
current (growing) group is absorbed, in order.  Returns the grown group,
the rectangles still unclaimed (in their original order), and the
`changed` flag of this pass. -/
def absorbPass (hT vT : Int) (group : List I4) :
    List I4 → List I4 × List I4 × Bool
  | [] => (group, [], false)
  | r :: rest =>
    if group.any (fun g => rectangles_should_merge g r hT vT) then
      let p := absorbPass hT vT (group ++ [r]) rest
      (p.1, p.2.1, true)
    else
      let p := absorbPass hT vT group rest
      (p.1, r :: p.2.1, p.2.2)

/-- The `while changed` loop of `merge_nearby_rectangles`, with explicit fuel:
each pass with `changed = True` strictly shrinks the unclaimed list, so
`rem.length + 1` passes always reach the fixed point. -/
def growGroupFuel (hT vT : Int) : Nat → List I4 → List I4 → List I4 × List I4
  | 0, group, rem => (group, rem)
  | fuel + 1, group, rem =>
    let p := absorbPass hT vT group rem
    if p.2.2 then growGroupFuel hT vT fuel p.1 p.2.1 else (p.1, p.2.1)

/-- Grow one group to its fixed point (adequately fuelled). -/
def growGroup (hT vT : Int) (group rem : List I4) : List I4 × List I4 :=
  growGroupFuel hT vT (rem.length + 1) group rem

/-- The outer `for i, rect1 in enumerate(rects)` loop: each still-unused
rectangle in order seeds a new group, which is grown to its fixed point;
fuelled by the list length (each group claims at least its seed). -/
def merge_groupsFuel (hT vT : Int) : Nat → List I4 → List (List I4)
  | 0, _ => []
  | _ + 1, [] => []
  | fuel + 1, r :: rest =>
    let p := growGroup hT vT [r] rest
    p.1 :: merge_groupsFuel hT vT fuel p.2

/-- The groups formed by `merge_nearby_rectangles` on a corner-form list. -/
def merge_groups (hT vT : Int) (rects : List I4) : List (List I4) :=
  merge_groupsFuel hT vT rects.length rects

/-- Bounding box of one group, reported back in `(x, y, w, h)` form:
`(min_x, min_y, max_x - min_x, max_y - min_y)` over the group members. -/
def group_bbox : List I4 → I4
  | [] => (0, 0, 0, 0)
  | r :: rs =>
    let min_x := rs.foldl (fun m q => min m q.1) r.1
    let min_y := rs.foldl (fun m q => min m q.2.1) r.2.1
    let max_x := rs.foldl (fun m q => max m q.2.2.1) r.2.2.1
    let max_y := rs.foldl (fun m q => max m q.2.2.2) r.2.2.2
    (min_x, min_y, max_x - min_x, max_y - min_y)

/-- `merge_nearby_rectangles(rectangles, horizontal_threshold, vertical_threshold)`:
convert `(x, y, w, h)` input to corner form, cluster by iterated absorption,
and report each group's bounding box.  (The source's early `return []` on an
empty input is subsumed: the group list of an empty input is empty.) -/
def merge_nearby_rectangles (rectangles : List I4)
    (horizontal_threshold vertical_threshold : Int) : List I4 :=
  (merge_groups horizontal_threshold vertical_threshold
      (rectangles.map to_corners)).map group_bbox

/-- ` should_extract_annotation(annot, annot_type, extract_highlights, extract_handwriting)`.
The annotation's colour dictionary is modelled by its two optional entries
`annot.colors.get("stroke")` / `annot.colors.get("fill")` (`none` = key absent);
colour components are rationals in `[0, 1]`. -/
def should_extract_annotation (annot_type : String)
    (stroke fill : Option (List ℚ))
    (extract_highlights extract_handwriting : Bool) : Bool :=
  if annot_type ∈ (["Highlight", "Squiggly", "StrikeOut", "Underline"]
      : List String) then
    if extract_highlights = false then false
    else
      -- color = annot.colors.get("stroke", annot.colors.get("fill", [0, 0, 0]))
      match stroke.getD (fill.getD [0, 0, 0]) with
      | r :: g :: b :: _ =>
        decide (r > 7/10) && decide (g > 7/10) && decide (b < 5/10)
      | _ => false
  else if annot_type ∈ (["Ink", "FreeText"] : List String) then
    if extract_handwriting = false then false
    else
      -- color = annot.colors.get("stroke", [0, 0, 0])
      match stroke.getD [0, 0, 0] with
      | r :: g :: b :: _ =>
        decide (r > 7/10) && decide (g < 3/10) && decide (b < 3/10)
      | _ => false
  else false

/-- The colour-lookup rule asserted by the claim (stroke, else fill, else
opaque black, on BOTH eligible paths), stated as its own predicate so it can
be compared with the source behaviour. -/
def should_extract_annotation_claimed (annot_type : String)
    (stroke fill : Option (List ℚ))
    (extract_highlights extract_handwriting : Bool) : Bool :=
  if annot_type ∈ (["Highlight", "Squiggly", "StrikeOut", "Underline"]
      : List String) then
    if extract_highlights = false then false
    else
      match stroke.getD (fill.getD [0, 0, 0]) with
      | r :: g :: b :: _ =>
        decide (r > 7/10) && decide (g > 7/10) && decide (b < 5/10)
      | _ => false
  else if annot_type ∈ (["Ink", "FreeText"] : List String) then
    if extract_handwriting = false then false
    else
      match stroke.getD (fill.getD [0, 0, 0]) with
      | r :: g :: b :: _ =>
        decide (r > 7/10) && decide (g < 3/10) && decide (b < 3/10)
      | _ => false
  else false

/-- Padded, clamped crop rectangle of the metadata-annotation path
(`padding = 10`), from the already-scaled pixel coordinates. -/
def clamp_annot_rect (imgW imgH x1 y1 x2 y2 : Int) : I4 :=
  (max 0 (x1 - 10), max 0 (y1 - 10), min imgW (x2 + 10), min imgH (y2 + 10))

/-- Padded, clamped crop rectangle of the colour-detection path
(`padding = 15`), from a merged `(x, y, w, h)` group rectangle. -/
def clamp_color_rect (imgW imgH x y w h : Int) : I4 :=
  (max 0 (x - 15), max 0 (y - 15), min imgW (x + w + 15), min imgH (y + h + 15))

/-- Pixel count of the numpy crop `page_img[y1:y2, x1:x2]` (3 channels);
slice bounds are already within `[0, W] x [0, H]` after clamping, and an
inverted range yields an empty array. -/
def region_size (c : I4) : Int :=
  3 * max 0 (c.2.2.1 - c.1) * max 0 (c.2.2.2 - c.2.1)

/-- One record of the metadata-annotation path of
`extract_highlights_and_red_annotations`. -/
structure AnnotItem where
  page : Nat
  type : String
  filename : String
  coordinates : I4
deriving DecidableEq, Repr

/-- The per-annotation crop/emit step of the metadata path: pad by 10,
clamp to the page, and emit a record only if the cropped region is
non-empty. -/
def process_metadata_annotation (imgW imgH : Int) (page_num item_count : Nat)
    (annot_type : String) (x1 y1 x2 y2 : Int) : Option AnnotItem :=
  let c := clamp_annot_rect imgW imgH x1 y1 x2 y2
  if 0 < region_size c then
    some { page := page_num + 1
           type := annot_type
           filename := "page_" ++ toString (page_num + 1) ++ "_" ++ annot_type
                        ++ "_" ++ toString (item_count + 1) ++ ".png"
           coordinates := c }
  else none

/-- One record of the colour-detection path of `extract_by_color_detection`. -/
structure ExtractedItem where
  page : Nat
  type : String
  filename : String
  coordinates : I4
  individual_regions : Nat
deriving DecidableEq, Repr

/-- The `for i, (x, y, w, h) in enumerate(merged...)` emission loop of one
category of `extract_by_color_detection`: pad each merged group by 15, clamp,
skip empty crops, and append a record whose `individual_regions` counts the
original per-category candidates overlapping the group's bounding box. -/
def emit_groups (imgW imgH : Int) (page_num : Nat) (rects : List I4)
    (tyName : String) (start_index : Nat) (acc : List ExtractedItem) :
    List I4 → List ExtractedItem
  | [] => acc
  | (x, y, w, h) :: rest =>
    let c := clamp_color_rect imgW imgH x y w h
    if 0 < region_size c then
      let item : ExtractedItem :=
        { page := page_num + 1
          type := tyName
          filename := "page_" ++ toString (page_num + 1) ++ "_" ++ tyName
                       ++ "_" ++ toString (start_index + acc.length + 1) ++ ".png"
          coordinates := c
          individual_regions :=
            (rects.filter (fun r => rectangles_overlap (x, y, w, h) r)).length }
      emit_groups imgW imgH page_num rects tyName start_index (acc ++ [item]) rest
    else emit_groups imgW imgH page_num rects tyName start_index acc rest

/-- `extract_by_color_detection(page_img, page_num, output_dir, start_index,
extract_highlights, extract_handwriting)` after the OpenCV colour-mask /
contour stage: `yellow_rects` and `red_rects` are the per-category candidate
rectangles that stage produced (external library calls).  Yellow groups are
merged with thresholds `(100, 50)`, red groups with `(80, 40)`; red records
are appended after yellow ones and continue their numbering. -/
def extract_by_color_detection (imgW imgH : Int) (page_num start_index : Nat)
    (yellow_rects red_rects : List I4)
    (extract_highlights extract_handwriting : Bool) : List ExtractedItem :=
  let items1 :=
    if extract_highlights then
      emit_groups imgW imgH page_num yellow_rects "yellow_highlight_group"
        start_index [] (merge_nearby_rectangles yellow_rects 100 50)
    else []
  if extract_handwriting then
    emit_groups imgW imgH page_num red_rects "red_mark_group"
      start_index items1 (merge_nearby_rectangles red_rects 80 40)
  else items1

/-- Geometric overlap of two corner-form rectangles: the closed boxes have a
common point (the claim's notion of "geometrically overlap"). -/
def rects_overlap_geometrically (a b : I4) : Prop :=
  max a.1 b.1 ≤ min a.2.2.1 b.2.2.1 ∧ max a.2.1 b.2.1 ≤ min a.2.2.2 b.2.2.2

/-- Geometric containment of one `(x, y, w, h)` rectangle in another (the
claim's notion for "each input rectangle is contained in some group's
bounding box"). -/
def rect_contains (outer inner : I4) : Prop :=
  outer.1 ≤ inner.1 ∧ outer.2.1 ≤ inner.2.1 ∧
  inner.1 + inner.2.2.1 ≤ outer.1 + outer.2.2.1 ∧
  inner.2.1 + inner.2.2.2 ≤ outer.2.1 + outer.2.2.2

/-- The merge predicate is symmetric in its two rectangle arguments. -/
theorem rectangles_should_merge_symm (a b : I4) (hT vT : Int) :
    rectangles_should_merge a b hT vT = rectangles_should_merge b a hT vT := by
  obtain ⟨ax0, ay0, ax1, ay1⟩ := a
  obtain ⟨bx0, by0, bx1, by1⟩ := b
  rw [Bool.eq_iff_iff]
  simp only [rectangles_should_merge, Bool.and_eq_true, Bool.not_eq_true',
    Bool.or_eq_false_iff, decide_eq_false_iff_not]
  omega

/-- Unfolding equation of `absorbPass` when the head rectangle is absorbed. -/
theorem absorbPass_cons_pos (hT vT : Int) (group : List I4) (r : I4)
    (rest : List I4)
    (h : group.any (fun g => rectangles_should_merge g r hT vT) = true) :
    absorbPass hT vT group (r :: rest) =
      ((absorbPass hT vT (group ++ [r]) rest).1,
       (absorbPass hT vT (group ++ [r]) rest).2.1, true) := by
  simp [absorbPass, h]

/-- Unfolding equation of `absorbPass` when the head rectangle is kept. -/
theorem absorbPass_cons_neg (hT vT : Int) (group : List I4) (r : I4)
    (rest : List I4)
    (h : group.any (fun g => rectangles_should_merge g r hT vT) = false) :
    absorbPass hT vT group (r :: rest) =
      ((absorbPass hT vT group rest).1,
       r :: (absorbPass hT vT group rest).2.1,
       (absorbPass hT vT group rest).2.2) := by
  simp [absorbPass, h]

/-- One absorption pass only shuffles rectangles between the group and the
unclaimed list: their concatenation is a permutation of the inputs. -/
theorem absorbPass_perm (hT vT : Int) :
    ∀ (l group : List I4),
      ((absorbPass hT vT group l).1 ++ (absorbPass hT vT group l).2.1).Perm
        (group ++ l) := by
  intro l
  induction l with
  | nil => intro group; simp [absorbPass]
  | cons r rest ih =>
    intro group
    cases h : group.any (fun g => rectangles_should_merge g r hT vT) with
    | true =>
      rw [absorbPass_cons_pos hT vT group r rest h]
      simpa [List.append_assoc] using ih (group ++ [r])
    | false =>
      rw [absorbPass_cons_neg hT vT group r rest h]
      have h1 : ((absorbPass hT vT group rest).1 ++
          r :: (absorbPass hT vT group rest).2.1).Perm
          (r :: ((absorbPass hT vT group rest).1 ++
            (absorbPass hT vT group rest).2.1)) := List.perm_middle
      exact h1.trans (((ih group).cons r).trans List.perm_middle.symm)

/-- An absorption pass never lengthens the unclaimed list. -/
theorem absorbPass_rem_le (hT vT : Int) :
    ∀ (l group : List I4),
      (absorbPass hT vT group l).2.1.length ≤ l.length := by
  intro l
  induction l with
  | nil => intro group; simp [absorbPass]
  | cons r rest ih =>
    intro group
    cases h : group.any (fun g => rectangles_should_merge g r hT vT) with
    | true =>
      rw [absorbPass_cons_pos hT vT group r rest h]
      exact le_trans (ih (group ++ [r])) (Nat.le_succ _)
    | false =>
      rw [absorbPass_cons_neg hT vT group r rest h]
      exact Nat.succ_le_succ (ih group)

/-- A pass that reports `changed` strictly shrinks the unclaimed list. -/
theorem absorbPass_changed_lt (hT vT : Int) :
    ∀ (l group : List I4),
      (absorbPass hT vT group l).2.2 = true →
      (absorbPass hT vT group l).2.1.length < l.length := by
  intro l
  induction l with
  | nil => intro group h; simp [absorbPass] at h
  | cons r rest ih =>
    intro group
    cases h : group.any (fun g => rectangles_should_merge g r hT vT) with
    | true =>
      rw [absorbPass_cons_pos hT vT group r rest h]
      intro _
      exact Nat.lt_succ_of_le (absorbPass_rem_le hT vT rest (group ++ [r]))
    | false =>
      rw [absorbPass_cons_neg hT vT group r rest h]
      intro hc
      exact Nat.succ_lt_succ (ih group hc)

/-- A pass that reports no change absorbed nothing, and every unclaimed
rectangle fails the merge test against every group member: the fixed point. -/
theorem absorbPass_not_changed (hT vT : Int) :
    ∀ (l group : List I4),
      (absorbPass hT vT group l).2.2 = false →
      (absorbPass hT vT group l).1 = group ∧
      (absorbPass hT vT group l).2.1 = l ∧
      ∀ r ∈ l, ∀ g ∈ group, rectangles_should_merge g r hT vT = false := by
  intro l
  induction l with
  | nil => intro group _; simp [absorbPass]
  | cons r rest ih =>
    intro group
    cases h : group.any (fun g => rectangles_should_merge g r hT vT) with
    | true =>
      rw [absorbPass_cons_pos hT vT group r rest h]
      intro hc
      exact absurd hc (by simp)
    | false =>
      rw [absorbPass_cons_neg hT vT group r rest h]
      intro hc
      obtain ⟨e1, e2, hall⟩ := ih group hc
      refine ⟨e1, by rw [e2], ?_⟩
      intro r' hr' g hg
      rcases List.mem_cons.mp hr' with hr' | hr'
      · subst hr'
        have hg' := List.any_eq_false.mp h g hg
        simp only [Bool.not_eq_true] at hg'
        exact hg'
      · exact hall r' hr' g hg

/-- A group built by the absorption loop: a seed, repeatedly extended by
rectangles each of which merges with some rectangle already in the group.
This is the connectivity certificate of one cluster. -/
inductive Grown (hT vT : Int) : List I4 → Prop
  | seed (x : I4) : Grown hT vT [x]
  | extend (g : List I4) (z y : I4) (hg : Grown hT vT g) (hy : y ∈ g)
      (he : rectangles_should_merge y z hT vT = true) : Grown hT vT (g ++ [z])

/-- A grown group is never empty. -/
theorem grown_ne_nil {hT vT : Int} {g : List I4} (h : Grown hT vT g) :
    g ≠ [] := by
  induction h with
  | seed x => simp
  | extend g z y hg hy he ih => simp

/-- Absorption preserves the connectivity certificate of the group. -/
theorem absorbPass_grown (hT vT : Int) :
    ∀ (l group : List I4), Grown hT vT group →
      Grown hT vT (absorbPass hT vT group l).1 := by
  intro l
  induction l with
  | nil => intro group hg; simpa [absorbPass] using hg
  | cons r rest ih =>
    intro group hg
    cases h : group.any (fun g => rectangles_should_merge g r hT vT) with
    | true =>
      rw [absorbPass_cons_pos hT vT group r rest h]
      obtain ⟨y, hy, he⟩ := List.any_eq_true.mp h
      exact ih (group ++ [r]) (Grown.extend group r y hg hy he)
    | false =>
      rw [absorbPass_cons_neg hT vT group r rest h]
      exact ih group hg

/-- Unfolding equation of `growGroupFuel` when the pass changed something. -/
theorem growGroupFuel_succ_pos (hT vT : Int) (n : Nat) (group rem : List I4)
    (h : (absorbPass hT vT group rem).2.2 = true) :
    growGroupFuel hT vT (n + 1) group rem =
      growGroupFuel hT vT n (absorbPass hT vT group rem).1
        (absorbPass hT vT group rem).2.1 := by
  simp [growGroupFuel, h]

/-- Unfolding equation of `growGroupFuel` at the fixed point. -/
theorem growGroupFuel_succ_neg (hT vT : Int) (n : Nat) (group rem : List I4)
    (h : (absorbPass hT vT group rem).2.2 = false) :
    growGroupFuel hT vT (n + 1) group rem =
      ((absorbPass hT vT group rem).1, (absorbPass hT vT group rem).2.1) := by
  simp [growGroupFuel, h]

/-- The fuelled fixed-point loop also only shuffles rectangles. -/
theorem growGroupFuel_perm (hT vT : Int) :
    ∀ (fuel : Nat) (group rem : List I4),
      ((growGroupFuel hT vT fuel group rem).1 ++
        (growGroupFuel hT vT fuel group rem).2).Perm (group ++ rem) := by
  intro fuel
  induction fuel with
  | zero => intro group rem; simp [growGroupFuel]
  | succ n ih =>
    intro group rem
    cases h : (absorbPass hT vT group rem).2.2 with
    | true =>
      rw [growGroupFuel_succ_pos hT vT n group rem h]
      exact (ih _ _).trans (absorbPass_perm hT vT rem group)
    | false =>
      rw [growGroupFuel_succ_neg hT vT n group rem h]
      exact absorbPass_perm hT vT rem group

/-- The fixed-point loop never lengthens the unclaimed list. -/
theorem growGroupFuel_rem_le (hT vT : Int) :
    ∀ (fuel : Nat) (group rem : List I4),
      (growGroupFuel hT vT fuel group rem).2.length ≤ rem.length := by
  intro fuel
  induction fuel with
  | zero => intro group rem; simp [growGroupFuel]
  | succ n ih =>
    intro group rem
    cases h : (absorbPass hT vT group rem).2.2 with
    | true =>
      rw [growGroupFuel_succ_pos hT vT n group rem h]
      exact le_trans (ih _ _) (absorbPass_rem_le hT vT rem group)
    | false =>
      rw [growGroupFuel_succ_neg hT vT n group rem h]
      exact absorbPass_rem_le hT vT rem group

/-- The fixed-point loop preserves the connectivity certificate. -/
theorem growGroupFuel_grown (hT vT : Int) :
    ∀ (fuel : Nat) (group rem : List I4), Grown hT vT group →
      Grown hT vT (growGroupFuel hT vT fuel group rem).1 := by
  intro fuel
  induction fuel with
  | zero => intro group rem hg; simpa [growGroupFuel] using hg
  | succ n ih =>
    intro group rem hg
    cases h : (absorbPass hT vT group rem).2.2 with
    | true =>
      rw [growGroupFuel_succ_pos hT vT n group rem h]
      exact ih _ _ (absorbPass_grown hT vT rem group hg)
    | false =>
      rw [growGroupFuel_succ_neg hT vT n group rem h]
      exact absorbPass_grown hT vT rem group hg

/-- With adequate fuel the loop reaches the fixed point: no rectangle left
unclaimed merges with any member of the finished group. -/
theorem growGroupFuel_fix (hT vT : Int) :
    ∀ (fuel : Nat) (rem group : List I4), rem.length < fuel →
      ∀ x ∈ (growGroupFuel hT vT fuel group rem).1,
        ∀ y ∈ (growGroupFuel hT vT fuel group rem).2,
          rectangles_should_merge x y hT vT = false := by
  intro fuel
  induction fuel with
  | zero => intro rem group h; omega
  | succ n ih =>
    intro rem group hlen
    cases h : (absorbPass hT vT group rem).2.2 with
    | true =>
      rw [growGroupFuel_succ_pos hT vT n group rem h]
      exact ih _ _ (lt_of_lt_of_le (absorbPass_changed_lt hT vT rem group h)
        (Nat.lt_succ_iff.mp hlen))
    | false =>
      rw [growGroupFuel_succ_neg hT vT n group rem h]
      obtain ⟨e1, e2, hall⟩ := absorbPass_not_changed hT vT rem group h
      rw [e1, e2]
      intro x hx y hy
      exact hall y hy x hx

/-- Permutation invariant of `growGroup`. -/
theorem growGroup_perm (hT vT : Int) (group rem : List I4) :
    ((growGroup hT vT group rem).1 ++ (growGroup hT vT group rem).2).Perm
      (group ++ rem) :=
  growGroupFuel_perm hT vT _ group rem

/-- `growGroup` never lengthens the unclaimed list. -/
theorem growGroup_rem_le (hT vT : Int) (group rem : List I4) :
    (growGroup hT vT group rem).2.length ≤ rem.length :=
  growGroupFuel_rem_le hT vT _ group rem

/-- `growGroup` preserves the connectivity certificate. -/
theorem growGroup_grown (hT vT : Int) (group rem : List I4)
    (hg : Grown hT vT group) : Grown hT vT (growGroup hT vT group rem).1 :=
  growGroupFuel_grown hT vT _ group rem hg

/-- `growGroup` is run with adequate fuel, so its result is a fixed point. -/
theorem growGroup_fix (hT vT : Int) (group rem : List I4) :
    ∀ x ∈ (growGroup hT vT group rem).1,
      ∀ y ∈ (growGroup hT vT group rem).2,
        rectangles_should_merge x y hT vT = false :=
  growGroupFuel_fix hT vT _ rem group (Nat.lt_succ_self _)

/-- Two groups are separated when no rectangle of one merges with any
rectangle of the other. -/
def Separated (hT vT : Int) (G H : List I4) : Prop :=
  ∀ x ∈ G, ∀ y ∈ H, rectangles_should_merge x y hT vT = false

/-- Separation is symmetric. -/
theorem Separated.symm {hT vT : Int} {G H : List I4}
    (h : Separated hT vT G H) : Separated hT vT H G := by
  intro x hx y hy
  rw [rectangles_should_merge_symm]
  exact h y hy x hx

/-- Unfolding equation of the outer loop on a non-empty list. -/
theorem merge_groupsFuel_cons (hT vT : Int) (n : Nat) (r : I4)
    (rest : List I4) :
    merge_groupsFuel hT vT (n + 1) (r :: rest) =
      (growGroup hT vT [r] rest).1 ::
        merge_groupsFuel hT vT n (growGroup hT vT [r] rest).2 := by
  simp [merge_groupsFuel]

/-- The groups formed by the outer loop exactly partition the input list
(up to order). -/
theorem merge_groupsFuel_flatten_perm (hT vT : Int) :
    ∀ (fuel : Nat) (l : List I4), l.length ≤ fuel →
      ((merge_groupsFuel hT vT fuel l).flatten).Perm l := by
  intro fuel
  induction fuel with
  | zero =>
    intro l h
    have : l = [] := List.length_eq_zero.mp (Nat.le_zero.mp h)
    subst this
    simp [merge_groupsFuel]
  | succ n ih =>
    intro l h
    cases l with
    | nil => simp [merge_groupsFuel]
    | cons r rest =>
      rw [merge_groupsFuel_cons hT vT n r rest, List.flatten_cons]
      have hrest : rest.length ≤ n := by simpa using h
      have h1 := List.Perm.append_left (growGroup hT vT [r] rest).1
        (ih _ (le_trans (growGroup_rem_le hT vT [r] rest) hrest))
      exact h1.trans (growGroup_perm hT vT [r] rest)

/-- Every group formed by the outer loop carries a connectivity
certificate. -/
theorem merge_groupsFuel_grown (hT vT : Int) :
    ∀ (fuel : Nat) (l : List I4),
      ∀ G ∈ merge_groupsFuel hT vT fuel l, Grown hT vT G := by
  intro fuel
  induction fuel with
  | zero => intro l G hG; simp [merge_groupsFuel] at hG
  | succ n ih =>
    intro l G hG
    cases l with
    | nil => simp [merge_groupsFuel] at hG
    | cons r rest =>
      rw [merge_groupsFuel_cons hT vT n r rest] at hG
      rcases List.mem_cons.mp hG with hG | hG
      · subst hG
        exact growGroup_grown hT vT [r] rest (Grown.seed r)
      · exact ih _ G hG

/-- Distinct groups formed by the outer loop are pairwise separated. -/
theorem merge_groupsFuel_pairwise (hT vT : Int) :
    ∀ (fuel : Nat) (l : List I4), l.length ≤ fuel →
      (merge_groupsFuel hT vT fuel l).Pairwise (Separated hT vT) := by
  intro fuel
  induction fuel with
  | zero => intro l h; simp [merge_groupsFuel]
  | succ n ih =>
    intro l h
    cases l with
    | nil => simp [merge_groupsFuel]
    | cons r rest =>
      have hrest : rest.length ≤ n := by simpa using h
      have hrem : (growGroup hT vT [r] rest).2.length ≤ n :=
        le_trans (growGroup_rem_le hT vT [r] rest) hrest
      rw [merge_groupsFuel_cons hT vT n r rest, List.pairwise_cons]
      refine ⟨?_, ih _ hrem⟩
      intro H hH x hx y hy
      have hyrem : y ∈ (growGroup hT vT [r] rest).2 := by
        have hyflat : y ∈ (merge_groupsFuel hT vT n
            (growGroup hT vT [r] rest).2).flatten :=
          List.mem_flatten.mpr ⟨H, hH, hy⟩
        exact (merge_groupsFuel_flatten_perm hT vT n _ hrem).mem_iff.mp hyflat
      exact growGroup_fix hT vT [r] rest x hx y hyrem

/-- The groups of `merge_groups` partition the input (up to order). -/
theorem merge_groups_flatten_perm (hT vT : Int) (l : List I4) :
    ((merge_groups hT vT l).flatten).Perm l :=
  merge_groupsFuel_flatten_perm hT vT l.length l le_rfl

/-- Every group of `merge_groups` carries a connectivity certificate. -/
theorem merge_groups_grown (hT vT : Int) (l : List I4) :
    ∀ G ∈ merge_groups hT vT l, Grown hT vT G :=
  merge_groupsFuel_grown hT vT l.length l

/-- The groups of `merge_groups` are pairwise separated. -/
theorem merge_groups_pairwise (hT vT : Int) (l : List I4) :
    (merge_groups hT vT l).Pairwise (Separated hT vT) :=
  merge_groupsFuel_pairwise hT vT l.length l le_rfl

/-- A rectangle occurring at least twice in a grown group was absorbed at
least once, so it merges with some member of the group. -/
theorem grown_count_two {hT vT : Int} {G : List I4} (h : Grown hT vT G) :
    ∀ v : I4, 2 ≤ Multiset.count v ↑G →
      ∃ y ∈ G, rectangles_should_merge y v hT vT = true := by
  induction h with
  | seed x =>
    intro v hv
    rw [Multiset.coe_singleton, Multiset.count_singleton] at hv
    by_cases hvx : v = x
    · rw [if_pos hvx] at hv; omega
    · rw [if_neg hvx] at hv; omega
  | extend g z y hg hy he ih =>
    intro v hv
    by_cases hzv : z = v
    · subst hzv
      exact ⟨y, List.mem_append_left _ hy, he⟩
    · rw [← Multiset.coe_add, Multiset.count_add, Multiset.coe_singleton,
        Multiset.count_singleton, if_neg (Ne.symm hzv)] at hv
      obtain ⟨y', hy', he'⟩ := ih v (by omega)
      exact ⟨y', List.mem_append_left _ hy', he'⟩

/-- In a grown group with at least two members, every member merges with
some member of the group. -/
theorem grown_mem_edge {hT vT : Int} {H : List I4} (h : Grown hT vT H) :
    2 ≤ H.length → ∀ v ∈ H,
      ∃ y ∈ H, rectangles_should_merge y v hT vT = true := by
  induction h with
  | seed x => intro hlen; simp at hlen
  | extend g z y hg hy he ih =>
    intro _ v hv
    rcases List.mem_append.mp hv with hv | hv
    · by_cases hg2 : 2 ≤ g.length
      · obtain ⟨y', hy', he'⟩ := ih hg2 v hv
        exact ⟨y', List.mem_append_left _ hy', he'⟩
      · have h1 : g.length = 1 := by
          have := List.length_pos.mpr (grown_ne_nil hg)
          omega
        obtain ⟨w, hw⟩ := List.length_eq_one.mp h1
        subst hw
        have hvw : v = w := by simpa using hv
        have hyw : y = w := by simpa using hy
        rw [hyw, ← hvw] at he
        refine ⟨z, List.mem_append_right _ (by simp), ?_⟩
        rw [rectangles_should_merge_symm]
        exact he
    · have : v = z := by simpa using hv
      subst this
      exact ⟨y, List.mem_append_left _ hy, he⟩

/-- All values of a grown group land inside a single group of any pairwise
separated family covering them: the connecting edges cannot cross a
separation boundary. -/
theorem grown_values_in_one_group (hT vT : Int) (G : List I4)
    (hg : Grown hT vT G) :
    ∀ (Q : List (List I4)), Q.Pairwise (Separated hT vT) →
      (∀ v ∈ G, v ∈ Q.flatten) →
      ∃ H ∈ Q, ∀ v ∈ G, v ∈ H := by
  induction hg with
  | seed x =>
    intro Q _ hmem
    obtain ⟨H, hH, hxH⟩ := List.mem_flatten.mp (hmem x (by simp))
    refine ⟨H, hH, ?_⟩
    intro v hv
    have : v = x := by simpa using hv
    subst this
    exact hxH
  | extend g z y hg hy he ih =>
    intro Q hQp hmem
    obtain ⟨H, hH, hsub⟩ :=
      ih Q hQp (fun v hv => hmem v (List.mem_append_left _ hv))
    obtain ⟨H', hH', hzH'⟩ :=
      List.mem_flatten.mp (hmem z (List.mem_append_right _ (by simp)))
    by_cases hzH : z ∈ H
    · refine ⟨H, hH, ?_⟩
      intro v hv
      rcases List.mem_append.mp hv with hv | hv
      · exact hsub v hv
      · have : v = z := by simpa using hv
        subst this
        exact hzH
    · exfalso
      have hne : H ≠ H' := fun e => hzH (e ▸ hzH')
      have hsymm : Symmetric (Separated hT vT) := fun _ _ hs => hs.symm
      have hsep : Separated hT vT H H' := hQp.forall hsymm hH hH' hne
      have hyH : y ∈ H := hsub y hy
      have hf := hsep y hyH z hzH'
      rw [hf] at he
      exact Bool.false_ne_true he

/-- A grown group is, as a multiset, contained in a single group of any
pairwise separated grown family whose flattening contains it. -/
theorem grown_le_group (hT vT : Int) (G : List I4) (hg : Grown hT vT G)
    (Q : List (List I4)) (hQp : Q.Pairwise (Separated hT vT))
    (hle : (↑G : Multiset I4) ≤ ↑Q.flatten) :
    ∃ (Q1 : List (List I4)) (H : List I4) (Q2 : List (List I4)),
      Q = Q1 ++ H :: Q2 ∧ (↑G : Multiset I4) ≤ ↑H := by
  have hmem : ∀ v ∈ G, v ∈ Q.flatten := by
    intro v hv
    have hv' : v ∈ (↑G : Multiset I4) := by simpa using hv
    simpa using Multiset.mem_of_le hle hv'
  obtain ⟨H, hHQ, hsub⟩ := grown_values_in_one_group hT vT G hg Q hQp hmem
  obtain ⟨Q1, Q2, hQeq⟩ := List.append_of_mem hHQ
  refine ⟨Q1, H, Q2, hQeq, ?_⟩
  rw [Multiset.le_iff_count]
  intro v
  by_cases hvG : v ∈ G
  · by_cases h2 : 2 ≤ Multiset.count v (↑G : Multiset I4)
    · obtain ⟨y, hyG, hye⟩ := grown_count_two hg v h2
      have hyH : y ∈ H := hsub y hyG
      subst hQeq
      have hnone : ∀ H'' , H'' ∈ Q1 ++ Q2 → v ∉ H'' := by
        intro H'' hH'' hvH''
        rcases List.mem_append.mp hH'' with h1 | h2'
        · have hs := (List.pairwise_append.mp hQp).2.2 H'' h1 H (by simp)
          have hf := hs v hvH'' y hyH
          rw [rectangles_should_merge_symm] at hf
          rw [hf] at hye
          exact Bool.false_ne_true hye
        · have hp2 := (List.pairwise_append.mp hQp).2.1
          have hs := (List.pairwise_cons.mp hp2).1 H'' h2'
          have hf := hs y hyH v hvH''
          rw [hf] at hye
          exact Bool.false_ne_true hye
      have hQ1 : Multiset.count v (↑Q1.flatten : Multiset I4) = 0 := by
        rw [Multiset.count_eq_zero]
        intro hvf
        obtain ⟨H'', hH'', hv''⟩ := List.mem_flatten.mp (by simpa using hvf)
        exact hnone H'' (List.mem_append_left _ hH'') hv''
      have hQ2 : Multiset.count v (↑Q2.flatten : Multiset I4) = 0 := by
        rw [Multiset.count_eq_zero]
        intro hvf
        obtain ⟨H'', hH'', hv''⟩ := List.mem_flatten.mp (by simpa using hvf)
        exact hnone H'' (List.mem_append_right _ hH'') hv''
      have hcnt := (Multiset.le_iff_count.mp hle) v
      rw [List.flatten_append, List.flatten_cons, ← Multiset.coe_add,
        ← Multiset.coe_add, Multiset.count_add, Multiset.count_add,
        hQ1, hQ2] at hcnt
      omega
    · have hpos : 0 < Multiset.count v (↑G : Multiset I4) :=
        Multiset.count_pos.mpr (by simpa using hvG)
      have hvH : v ∈ H := hsub v hvG
      have hposH : 0 < Multiset.count v (↑H : Multiset I4) :=
        Multiset.count_pos.mpr (by simpa using hvH)
      omega
  · have hz : Multiset.count v (↑G : Multiset I4) = 0 :=
      Multiset.count_eq_zero.mpr (by simpa using hvG)
    omega

/-- A group taken as a multiset (forgetting the order of its members). -/
def groupMS (g : List I4) : Multiset I4 := (g : Multiset I4)

/-- Unfolding of `groupMS`. -/
theorem groupMS_def (g : List I4) : groupMS g = (g : Multiset I4) := rfl

/-- Any two pairwise separated families of grown groups that partition the
same rectangles (up to order) are the same family of groups, up to order of
the groups and order inside each group. -/
theorem partition_unique (hT vT : Int) :
    ∀ (P Q : List (List I4)),
      (∀ G ∈ P, Grown hT vT G) → P.Pairwise (Separated hT vT) →
      (∀ H ∈ Q, Grown hT vT H) → Q.Pairwise (Separated hT vT) →
      P.flatten.Perm Q.flatten →
      (↑(P.map groupMS) : Multiset (Multiset I4)) = ↑(Q.map groupMS) := by
  intro P
  induction P with
  | nil =>
    intro Q _ _ hQg _ hperm
    have hnil : Q.flatten = [] := (hperm.symm).eq_nil
    have hQnil : Q = [] := by
      cases Q with
      | nil => rfl
      | cons H Q' =>
        exfalso
        have hH : H = [] := (List.flatten_eq_nil_iff.mp hnil) H (by simp)
        exact grown_ne_nil (hQg H (by simp)) hH
    subst hQnil
    rfl
  | cons G P' ih =>
    intro Q hPg hPp hQg hQp hperm
    have hflatP : (↑((G :: P').flatten) : Multiset I4) = ↑G + ↑P'.flatten := by
      rw [List.flatten_cons, ← Multiset.coe_add]
    have hGle : (↑G : Multiset I4) ≤ ↑Q.flatten := by
      have hpq : (↑((G :: P').flatten) : Multiset I4) = ↑Q.flatten :=
        Multiset.coe_eq_coe.mpr hperm
      rw [← hpq, hflatP]
      exact Multiset.le_add_right _ _
    obtain ⟨Q1, H, Q2, hQeq, hGH⟩ :=
      grown_le_group hT vT G (hPg G (by simp)) Q hQp hGle
    subst hQeq
    have hflatQ : (↑((Q1 ++ H :: Q2).flatten) : Multiset I4)
        = ↑H + (↑Q1.flatten + ↑Q2.flatten) := by
      rw [List.flatten_append, List.flatten_cons, ← Multiset.coe_add,
        ← Multiset.coe_add, ← add_assoc,
        add_comm (↑Q1.flatten : Multiset I4) (↑H : Multiset I4), add_assoc]
    have hHQ : H ∈ Q1 ++ H :: Q2 := by simp
    have hHle : (↑H : Multiset I4) ≤ ↑((G :: P').flatten) := by
      have hpq : (↑((G :: P').flatten) : Multiset I4)
          = ↑((Q1 ++ H :: Q2).flatten) := Multiset.coe_eq_coe.mpr hperm
      rw [hpq, hflatQ]
      exact Multiset.le_add_right _ _
    obtain ⟨P1, G'', P2, hPeq, hHG⟩ :=
      grown_le_group hT vT H (hQg H hHQ) (G :: P') hPp hHle
    have hGHeq : (↑G : Multiset I4) = ↑H := by
      cases P1 with
      | nil =>
        rw [List.nil_append] at hPeq
        injection hPeq with hG'' _
        rw [← hG''] at hHG
        exact le_antisymm hGH hHG
      | cons A P1' =>
        rw [List.cons_append] at hPeq
        injection hPeq with hA hP'
        have hG''P' : G'' ∈ P' := by
          rw [hP']
          exact List.mem_append_right _ (by simp)
        have hsep : Separated hT vT G G'' :=
          (List.pairwise_cons.mp hPp).1 G'' hG''P'
        by_cases hH2 : 2 ≤ H.length
        · exfalso
          obtain ⟨x, hx⟩ :=
            List.exists_mem_of_ne_nil G (grown_ne_nil (hPg G (by simp)))
          have hxH : x ∈ H := by
            have hx' : x ∈ (↑G : Multiset I4) := by simpa using hx
            simpa using Multiset.mem_of_le hGH hx'
          obtain ⟨y, hyH, hye⟩ := grown_mem_edge (hQg H hHQ) hH2 x hxH
          have hyG'' : y ∈ G'' := by
            have hy' : y ∈ (↑H : Multiset I4) := by simpa using hyH
            simpa using Multiset.mem_of_le hHG hy'
          have hf := hsep x hx y hyG''
          rw [rectangles_should_merge_symm] at hf
          rw [hf] at hye
          exact Bool.false_ne_true hye
        · have hcard : Multiset.card (↑H : Multiset I4)
              ≤ Multiset.card (↑G : Multiset I4) := by
            rw [Multiset.coe_card, Multiset.coe_card]
            have hG1 : 0 < G.length :=
              List.length_pos.mpr (grown_ne_nil (hPg G (by simp)))
            omega
          exact Multiset.eq_of_le_of_card_le hGH hcard
    have hperm' : P'.flatten.Perm (Q1 ++ Q2).flatten := by
      have h1 : (↑((G :: P').flatten) : Multiset I4)
          = ↑((Q1 ++ H :: Q2).flatten) := Multiset.coe_eq_coe.mpr hperm
      rw [hflatP, hflatQ, hGHeq] at h1
      have h2 : (↑P'.flatten : Multiset I4) = ↑Q1.flatten + ↑Q2.flatten :=
        add_left_cancel h1
      rw [Multiset.coe_add, ← List.flatten_append] at h2
      exact Multiset.coe_eq_coe.mp h2
    have hpairs := List.pairwise_append.mp hQp
    have hpQ1Q2 : (Q1 ++ Q2).Pairwise (Separated hT vT) := by
      rw [List.pairwise_append]
      exact ⟨hpairs.1, (List.pairwise_cons.mp hpairs.2.1).2,
        fun a ha b hb => hpairs.2.2 a ha b (List.mem_cons_of_mem _ hb)⟩
    have hQg' : ∀ H' ∈ Q1 ++ Q2, Grown hT vT H' := by
      intro H' hH'
      rcases List.mem_append.mp hH' with hm | hm
      · exact hQg H' (List.mem_append_left _ hm)
      · exact hQg H' (List.mem_append_right _ (List.mem_cons_of_mem _ hm))
    have hres := ih (Q1 ++ Q2) (fun G' hG' => hPg G' (List.mem_cons_of_mem _ hG'))
      (List.pairwise_cons.mp hPp).2 hQg' hpQ1Q2 hperm'
    have lhs : (↑((G :: P').map groupMS) : Multiset (Multiset I4))
        = (↑G : Multiset I4) ::ₘ ↑(P'.map groupMS) := by
      rw [List.map_cons, ← Multiset.cons_coe, groupMS_def]
    have rhs : (↑((Q1 ++ H :: Q2).map groupMS) : Multiset (Multiset I4))
        = (↑H : Multiset I4) ::ₘ ↑((Q1 ++ Q2).map groupMS) := by
      rw [List.map_append, List.map_cons, ← Multiset.coe_add, ← Multiset.cons_coe,
        Multiset.add_cons, Multiset.coe_add, ← List.map_append, groupMS_def]
    rw [lhs, rhs, hGHeq, hres]

/-- Reordering the input only reorders the groups (as multisets of member
rectangles): both runs produce valid partitions of the same rectangles, and
valid partitions are unique. -/
theorem merge_groups_perm (hT vT : Int) (L L' : List I4) (h : L.Perm L') :
    (↑((merge_groups hT vT L).map groupMS) : Multiset (Multiset I4)) =
      ↑((merge_groups hT vT L').map groupMS) :=
  partition_unique hT vT _ _ (merge_groups_grown hT vT L)
    (merge_groups_pairwise hT vT L) (merge_groups_grown hT vT L')
    (merge_groups_pairwise hT vT L')
    ((merge_groups_flatten_perm hT vT L).trans
      (h.trans (merge_groups_flatten_perm hT vT L').symm))

/-- A function on groups that is invariant under reordering of the group
members transports equality of group families as multisets. -/
theorem map_of_groupMS_eq {β : Type} (f : List I4 → β)
    (hf : ∀ g g' : List I4, g.Perm g' → f g = f g') (Ps Qs : List (List I4))
    (h : (↑(Ps.map groupMS) : Multiset (Multiset I4)) = ↑(Qs.map groupMS)) :
    (↑(Ps.map f) : Multiset β) = ↑(Qs.map f) := by
  let F : Multiset I4 → β := Quotient.lift f (fun a b hab => hf a b hab)
  have hcomp : ∀ Rs : List (List I4), Rs.map f = (Rs.map groupMS).map F := by
    intro Rs
    rw [List.map_map]
    rfl
  calc (↑(Ps.map f) : Multiset β)
      = Multiset.map F ↑(Ps.map groupMS) := by rw [hcomp Ps, Multiset.map_coe]
    _ = Multiset.map F ↑(Qs.map groupMS) := by rw [h]
    _ = ↑(Qs.map f) := by rw [hcomp Qs, Multiset.map_coe]

/-- Folding a commutative-associative operation is invariant under
reordering of the list. -/
theorem foldl_op_perm (op : Int → Int → Int)
    (hcomm : ∀ a b, op a b = op b a)
    (hassoc : ∀ a b c, op (op a b) c = op a (op b c)) (sel : I4 → Int) :
    ∀ {l l' : List I4}, l.Perm l' → ∀ b : Int,
      l.foldl (fun m q => op m (sel q)) b
        = l'.foldl (fun m q => op m (sel q)) b := by
  intro l l' h
  induction h with
  | nil => intro b; rfl
  | cons x h ih => intro b; simp only [List.foldl_cons]; exact ih _
  | swap x y l =>
    intro b
    simp only [List.foldl_cons]
    rw [hassoc, hassoc, hcomm (sel y) (sel x)]
  | trans h1 h2 ih1 ih2 => intro b; exact (ih1 b).trans (ih2 b)

/-- Folding an idempotent commutative-associative operation absorbs an
element already present in the list into the initial value. -/
theorem foldl_op_absorb (op : Int → Int → Int)
    (hcomm : ∀ a b, op a b = op b a)
    (hassoc : ∀ a b c, op (op a b) c = op a (op b c))
    (hidem : ∀ a, op a a = a) (sel : I4 → Int) :
    ∀ (l : List I4) (b : Int) (q : I4), q ∈ l →
      l.foldl (fun m r => op m (sel r)) (op b (sel q))
        = l.foldl (fun m r => op m (sel r)) b := by
  intro l
  induction l with
  | nil => intro b q hq; simp at hq
  | cons a t ih =>
    intro b q hq
    rcases List.mem_cons.mp hq with hq | hq
    · subst hq
      simp only [List.foldl_cons]
      rw [hassoc, hidem]
    · simp only [List.foldl_cons]
      rw [hassoc, hcomm (sel q) (sel a), ← hassoc]
      exact ih _ q hq

/-- The seed-initialised fold over the tail is determined by the members of
the whole list, for an idempotent commutative-associative operation. -/
theorem foldl_op_head_perm (op : Int → Int → Int)
    (hcomm : ∀ a b, op a b = op b a)
    (hassoc : ∀ a b c, op (op a b) c = op a (op b c))
    (hidem : ∀ a, op a a = a) (sel : I4 → Int)
    (r r' : I4) (rs rs' : List I4) (h : (r :: rs).Perm (r' :: rs')) :
    rs.foldl (fun m q => op m (sel q)) (sel r)
      = rs'.foldl (fun m q => op m (sel q)) (sel r') := by
  have e1 : (r :: rs).foldl (fun m q => op m (sel q)) (sel r)
      = rs.foldl (fun m q => op m (sel q)) (sel r) := by
    simp only [List.foldl_cons]
    rw [hidem]
  rw [← e1, foldl_op_perm op hcomm hassoc sel h (sel r)]
  simp only [List.foldl_cons]
  rcases List.mem_cons.mp (h.mem_iff.mp (List.mem_cons_self r rs)) with hr | hr
  · rw [hr, hidem]
  · rw [hcomm (sel r) (sel r')]
    exact foldl_op_absorb op hcomm hassoc hidem sel rs' (sel r') r hr

/-- The bounding box of a group only depends on which rectangles are in the
group, not on their order. -/
theorem group_bbox_perm :
    ∀ {g g' : List I4}, g.Perm g' → group_bbox g = group_bbox g' := by
  intro g g' h
  cases g with
  | nil =>
    rw [(h.symm.eq_nil : g' = [])]
  | cons r rs =>
    cases g' with
    | nil => exact absurd h.eq_nil (by simp)
    | cons r' rs' =>
      simp only [group_bbox]
      rw [foldl_op_head_perm min min_comm min_assoc min_self
          (fun q => q.1) r r' rs rs' h,
        foldl_op_head_perm min min_comm min_assoc min_self
          (fun q => q.2.1) r r' rs rs' h,
        foldl_op_head_perm max max_comm max_assoc max_self
          (fun q => q.2.2.1) r r' rs rs' h,
        foldl_op_head_perm max max_comm max_assoc max_self
          (fun q => q.2.2.2) r r' rs rs' h]

/-- A min-fold is bounded by its initial value. -/
theorem foldl_min_le_init (sel : I4 → Int) :
    ∀ (l : List I4) (b : Int),
      l.foldl (fun m q => min m (sel q)) b ≤ b := by
  intro l
  induction l with
  | nil => intro b; simp
  | cons a t ih =>
    intro b
    simp only [List.foldl_cons]
    exact le_trans (ih _) (min_le_left _ _)

/-- A min-fold is bounded by every member of the list. -/
theorem foldl_min_le_mem (sel : I4 → Int) :
    ∀ (l : List I4) (b : Int) (q : I4), q ∈ l →
      l.foldl (fun m r => min m (sel r)) b ≤ sel q := by
  intro l
  induction l with
  | nil => intro b q hq; simp at hq
  | cons a t ih =>
    intro b q hq
    rcases List.mem_cons.mp hq with hq | hq
    · subst hq
      simp only [List.foldl_cons]
      exact le_trans (foldl_min_le_init sel t _) (min_le_right _ _)
    · simp only [List.foldl_cons]
      exact ih _ q hq

/-- A max-fold dominates its initial value. -/
theorem le_foldl_max_init (sel : I4 → Int) :
    ∀ (l : List I4) (b : Int),
      b ≤ l.foldl (fun m q => max m (sel q)) b := by
  intro l
  induction l with
  | nil => intro b; simp
  | cons a t ih =>
    intro b
    simp only [List.foldl_cons]
    exact le_trans (le_max_left _ _) (ih _)

/-- A max-fold dominates every member of the list. -/
theorem le_foldl_max_mem (sel : I4 → Int) :
    ∀ (l : List I4) (b : Int) (q : I4), q ∈ l →
      sel q ≤ l.foldl (fun m r => max m (sel r)) b := by
  intro l
  induction l with
  | nil => intro b q hq; simp at hq
  | cons a t ih =>
    intro b q hq
    rcases List.mem_cons.mp hq with hq | hq
    · subst hq
      simp only [List.foldl_cons]
      exact le_trans (le_max_right _ _) (le_foldl_max_init sel t _)
    · simp only [List.foldl_cons]
      exact ih _ q hq

/-- Every member of a group lies inside the group's bounding box. -/
theorem group_bbox_mem (g : List I4) (v : I4) (hv : v ∈ g) :
    (group_bbox g).1 ≤ v.1 ∧ (group_bbox g).2.1 ≤ v.2.1 ∧
    v.2.2.1 ≤ (group_bbox g).1 + (group_bbox g).2.2.1 ∧
    v.2.2.2 ≤ (group_bbox g).2.1 + (group_bbox g).2.2.2 := by
  cases g with
  | nil => simp at hv
  | cons r rs =>
    have hminx : rs.foldl (fun m q => min m q.1) r.1 ≤ v.1 := by
      rcases List.mem_cons.mp hv with hv' | hv'
      · rw [hv']; exact foldl_min_le_init _ rs _
      · exact foldl_min_le_mem _ rs _ v hv'
    have hminy : rs.foldl (fun m q => min m q.2.1) r.2.1 ≤ v.2.1 := by
      rcases List.mem_cons.mp hv with hv' | hv'
      · rw [hv']; exact foldl_min_le_init _ rs _
      · exact foldl_min_le_mem _ rs _ v hv'
    have hmaxx : v.2.2.1 ≤ rs.foldl (fun m q => max m q.2.2.1) r.2.2.1 := by
      rcases List.mem_cons.mp hv with hv' | hv'
      · rw [hv']; exact le_foldl_max_init _ rs _
      · exact le_foldl_max_mem _ rs _ v hv'
    have hmaxy : v.2.2.2 ≤ rs.foldl (fun m q => max m q.2.2.2) r.2.2.2 := by
      rcases List.mem_cons.mp hv with hv' | hv'
      · rw [hv']; exact le_foldl_max_init _ rs _
      · exact le_foldl_max_mem _ rs _ v hv'
    simp only [group_bbox]
    refine ⟨hminx, hminy, by omega, by omega⟩

/-- Congruence of the absorption test under a change of thresholds that does
not change any pairwise merge decision. -/
theorem any_merge_congr (hT vT hT' vT' : Int) (group : List I4) (r : I4)
    (hagree : ∀ g ∈ group,
      rectangles_should_merge g r hT vT = rectangles_should_merge g r hT' vT') :
    group.any (fun g => rectangles_should_merge g r hT vT)
      = group.any (fun g => rectangles_should_merge g r hT' vT') := by
  induction group with
  | nil => rfl
  | cons a t ih =>
    simp only [List.any_cons]
    rw [hagree a (by simp), ih (fun g hg => hagree g (by simp [hg]))]

/-- `absorbPass` only looks at the merge predicate on rectangles drawn from
`L`; two threshold pairs that agree there give the same pass. -/
theorem absorbPass_congr (hT vT hT' vT' : Int) (L : List I4)
    (hagree : ∀ a ∈ L, ∀ b ∈ L,
      rectangles_should_merge a b hT vT = rectangles_should_merge a b hT' vT') :
    ∀ (l group : List I4), (∀ x ∈ group, x ∈ L) → (∀ x ∈ l, x ∈ L) →
      absorbPass hT vT group l = absorbPass hT' vT' group l := by
  intro l
  induction l with
  | nil => intro group _ _; simp [absorbPass]
  | cons r rest ih =>
    intro group hgroup hl
    have hrL : r ∈ L := hl r (by simp)
    have hc : group.any (fun g => rectangles_should_merge g r hT vT)
        = group.any (fun g => rectangles_should_merge g r hT' vT') :=
      any_merge_congr hT vT hT' vT' group r
        (fun g hg => hagree g (hgroup g hg) r hrL)
    have hrest : ∀ x ∈ rest, x ∈ L := fun x hx => hl x (by simp [hx])
    have hgroup' : ∀ x ∈ group ++ [r], x ∈ L := by
      intro x hx
      rcases List.mem_append.mp hx with h1 | h2
      · exact hgroup x h1
      · have hxr : x = r := by simpa using h2
        rw [hxr]; exact hrL
    cases h : group.any (fun g => rectangles_should_merge g r hT vT) with
    | true =>
      rw [absorbPass_cons_pos hT vT group r rest h,
        absorbPass_cons_pos hT' vT' group r rest (by rw [← hc]; exact h),
        ih (group ++ [r]) hgroup' hrest]
    | false =>
      rw [absorbPass_cons_neg hT vT group r rest h,
        absorbPass_cons_neg hT' vT' group r rest (by rw [← hc]; exact h),
        ih group hgroup hrest]

/-- The fixed-point loop is likewise insensitive to a threshold change that
does not change any merge decision among the involved rectangles. -/
theorem growGroupFuel_congr (hT vT hT' vT' : Int) (L : List I4)
    (hagree : ∀ a ∈ L, ∀ b ∈ L,
      rectangles_should_merge a b hT vT = rectangles_should_merge a b hT' vT') :
    ∀ (fuel : Nat) (group rem : List I4),
      (∀ x ∈ group, x ∈ L) → (∀ x ∈ rem, x ∈ L) →
      growGroupFuel hT vT fuel group rem = growGroupFuel hT' vT' fuel group rem := by
  intro fuel
  induction fuel with
  | zero => intro group rem _ _; simp [growGroupFuel]
  | succ n ih =>
    intro group rem hg hr
    have hap : absorbPass hT vT group rem = absorbPass hT' vT' group rem :=
      absorbPass_congr hT vT hT' vT' L hagree rem group hg hr
    have hmem1 : ∀ x ∈ (absorbPass hT vT group rem).1, x ∈ L := by
      intro x hx
      have h1 : x ∈ (absorbPass hT vT group rem).1 ++
          (absorbPass hT vT group rem).2.1 := List.mem_append_left _ hx
      rcases List.mem_append.mp ((absorbPass_perm hT vT rem group).mem_iff.mp h1)
        with h2 | h2
      · exact hg x h2
      · exact hr x h2
    have hmem2 : ∀ x ∈ (absorbPass hT vT group rem).2.1, x ∈ L := by
      intro x hx
      have h1 : x ∈ (absorbPass hT vT group rem).1 ++
          (absorbPass hT vT group rem).2.1 := List.mem_append_right _ hx
      rcases List.mem_append.mp ((absorbPass_perm hT vT rem group).mem_iff.mp h1)
        with h2 | h2
      · exact hg x h2
      · exact hr x h2
    cases h : (absorbPass hT vT group rem).2.2 with
    | true =>
      rw [growGroupFuel_succ_pos hT vT n group rem h,
        growGroupFuel_succ_pos hT' vT' n group rem (by rw [← hap]; exact h),
        ← hap]
      exact ih _ _ hmem1 hmem2
    | false =>
      rw [growGroupFuel_succ_neg hT vT n group rem h,
        growGroupFuel_succ_neg hT' vT' n group rem (by rw [← hap]; exact h),
        hap]

/-- The whole grouping loop is insensitive to a threshold change that does
not change any merge decision among the input rectangles. -/
theorem merge_groupsFuel_congr (hT vT hT' vT' : Int) (L : List I4)
    (hagree : ∀ a ∈ L, ∀ b ∈ L,
      rectangles_should_merge a b hT vT = rectangles_should_merge a b hT' vT') :
    ∀ (fuel : Nat) (l : List I4), (∀ x ∈ l, x ∈ L) →
      merge_groupsFuel hT vT fuel l = merge_groupsFuel hT' vT' fuel l := by
  intro fuel
  induction fuel with
  | zero => intro l _; simp [merge_groupsFuel]
  | succ n ih =>
    intro l hl
    cases l with
    | nil => simp [merge_groupsFuel]
    | cons r rest =>
      have hrL : ∀ x ∈ ([r] : List I4), x ∈ L := by
        intro x hx
        have hxr : x = r := by simpa using hx
        rw [hxr]; exact hl r (by simp)
      have hrest : ∀ x ∈ rest, x ∈ L := fun x hx => hl x (by simp [hx])
      have hgg : growGroup hT vT [r] rest = growGroup hT' vT' [r] rest :=
        growGroupFuel_congr hT vT hT' vT' L hagree (rest.length + 1) [r] rest
          hrL hrest
      have hmem : ∀ x ∈ (growGroup hT vT [r] rest).2, x ∈ L := by
        intro x hx
        have h1 : x ∈ (growGroup hT vT [r] rest).1 ++
            (growGroup hT vT [r] rest).2 := List.mem_append_right _ hx
        rcases List.mem_append.mp ((growGroup_perm hT vT [r] rest).mem_iff.mp h1)
          with h2 | h2
        · exact hrL x h2
        · exact hrest x h2
      rw [merge_groupsFuel_cons hT vT n r rest,
        merge_groupsFuel_cons hT' vT' n r rest, ← hgg,
        ih ((growGroup hT vT [r] rest).2) hmem]

/-- Threshold congruence for `merge_nearby_rectangles`: if the two threshold
pairs make the same merge decision on every pair of (corner-form) input
rectangles, the results coincide. -/
theorem merge_nearby_rectangles_congr (l : List I4) (hT vT hT' vT' : Int)
    (hagree : ∀ a ∈ l.map to_corners, ∀ b ∈ l.map to_corners,
      rectangles_should_merge a b hT vT = rectangles_should_merge a b hT' vT') :
    merge_nearby_rectangles l hT vT = merge_nearby_rectangles l hT' vT' := by
  simp only [merge_nearby_rectangles, merge_groups]
  rw [merge_groupsFuel_congr hT vT hT' vT' (l.map to_corners) hagree
    (l.map to_corners).length (l.map to_corners) (fun x hx => hx)]

/-- When nothing merges, a pass absorbs nothing. -/
theorem absorbPass_no_merge (hT vT : Int) :
    ∀ (l group : List I4),
      (∀ x ∈ l, ∀ g ∈ group, rectangles_should_merge g x hT vT = false) →
      absorbPass hT vT group l = (group, l, false) := by
  intro l
  induction l with
  | nil => intro group _; simp [absorbPass]
  | cons r rest ih =>
    intro group h
    have hany : group.any (fun g => rectangles_should_merge g r hT vT) = false :=
      List.any_eq_false.mpr (fun g hg => by rw [h r (by simp) g hg]; simp)
    rw [absorbPass_cons_neg hT vT group r rest hany,
      ih group (fun x hx g hg => h x (by simp [hx]) g hg)]

/-- When nothing merges, the fixed-point loop returns its inputs. -/
theorem growGroup_no_merge (hT vT : Int) (group rem : List I4)
    (h : ∀ x ∈ rem, ∀ g ∈ group, rectangles_should_merge g x hT vT = false) :
    growGroup hT vT group rem = (group, rem) := by
  have hap := absorbPass_no_merge hT vT rem group h
  show growGroupFuel hT vT (rem.length + 1) group rem = (group, rem)
  rw [growGroupFuel_succ_neg hT vT rem.length group rem (by rw [hap]), hap]

/-- On a pairwise non-merging list every group is a singleton, in input
order. -/
theorem merge_groupsFuel_no_merge (hT vT : Int) :
    ∀ (fuel : Nat) (L : List I4), L.length ≤ fuel →
      L.Pairwise (fun a b => rectangles_should_merge a b hT vT = false) →
      merge_groupsFuel hT vT fuel L = L.map (fun r => [r]) := by
  intro fuel
  induction fuel with
  | zero =>
    intro L h _
    rw [List.length_eq_zero.mp (Nat.le_zero.mp h)]
    simp [merge_groupsFuel]
  | succ n ih =>
    intro L h hp
    cases L with
    | nil => simp [merge_groupsFuel]
    | cons r rest =>
      obtain ⟨hhead, htail⟩ := List.pairwise_cons.mp hp
      have hgg : growGroup hT vT [r] rest = ([r], rest) :=
        growGroup_no_merge hT vT [r] rest (fun x hx g hg => by
          have hgr : g = r := by simpa using hg
          rw [hgr]; exact hhead x hx)
      rw [merge_groupsFuel_cons hT vT n r rest, hgg]
      show [r] :: merge_groupsFuel hT vT n rest = (r :: rest).map (fun r => [r])
      rw [List.map_cons, ih rest (by simpa using h) htail]

/-- Converting a rectangle to corner form and taking the bounding box of the
resulting singleton group gives back the rectangle. -/
theorem group_bbox_singleton_to_corners (r : I4) :
    group_bbox [to_corners r] = r := by
  obtain ⟨x, y, w, h⟩ := r
  simp only [to_corners, group_bbox, List.foldl_nil]
  have h1 : x + w - x = w := by omega
  have h2 : y + h - y = h := by omega
  rw [h1, h2]

/-- A pairwise non-merging rectangle list passes through
`merge_nearby_rectangles` unchanged. -/
theorem merge_nearby_no_merge_id (hT vT : Int) (m : List I4)
    (h : m.Pairwise (fun a b =>
      rectangles_should_merge (to_corners a) (to_corners b) hT vT = false)) :
    merge_nearby_rectangles m hT vT = m := by
  have hp : (m.map to_corners).Pairwise
      (fun a b => rectangles_should_merge a b hT vT = false) :=
    List.pairwise_map.mpr h
  simp only [merge_nearby_rectangles, merge_groups]
  rw [merge_groupsFuel_no_merge hT vT (m.map to_corners).length
    (m.map to_corners) le_rfl hp, List.map_map, List.map_map]
  have hcongr : m.map (fun x => group_bbox [to_corners x]) = m.map id :=
    List.map_congr_left (fun a _ =>
      (group_bbox_singleton_to_corners a : group_bbox [to_corners a] = id a))
  show m.map (fun x => group_bbox [to_corners x]) = m
  rw [hcongr, List.map_id]

example : merge_nearby_rectangles
    [(0,20,10,10),(5,25,25,25),(20,0,5,22)] 0 0
    = [(0,20,30,30),(20,0,5,22)] := by decide

example : merge_nearby_rectangles [(0,20,30,30),(20,0,5,22)] 0 0
    = [(0,0,30,50)] := by decide

example : extract_by_color_detection 900 1200 0 0
    [(100,100,50,20),(160,100,50,20)] [] true true
    = [{ page := 1, type := "yellow_highlight_group",
         filename := "page_1_yellow_highlight_group_1.png",
         coordinates := (85,85,225,135), individual_regions := 2 }] := by decide

/-- C1: for all rectangles `a = (ax0, ay0, ax1, ay1)`, `b` and non-negative
thresholds, `rectangles_should_merge a b hThresh vThresh` is true iff
`NOT(a.x1 < b.x0 - hThresh OR b.x1 < a.x0 - hThresh)` and the symmetric
vertical test both hold; geometric overlap always merges; and the predicate
is symmetric in its two rectangle arguments. -/
theorem C1_merge_predicate_spec (ax0 ay0 ax1 ay1 bx0 by0 bx1 by1 hT vT : Int)
    (hhT : 0 ≤ hT) (hvT : 0 ≤ vT) :
    (rectangles_should_merge (ax0, ay0, ax1, ay1) (bx0, by0, bx1, by1) hT vT
        = true ↔
      (¬ (ax1 < bx0 - hT ∨ bx1 < ax0 - hT) ∧
       ¬ (ay1 < by0 - vT ∨ by1 < ay0 - vT))) ∧
    (rects_overlap_geometrically (ax0, ay0, ax1, ay1) (bx0, by0, bx1, by1) →
      rectangles_should_merge (ax0, ay0, ax1, ay1) (bx0, by0, bx1, by1) hT vT
        = true) ∧
    rectangles_should_merge (ax0, ay0, ax1, ay1) (bx0, by0, bx1, by1) hT vT
      = rectangles_should_merge (bx0, by0, bx1, by1) (ax0, ay0, ax1, ay1) hT vT := by
  refine ⟨?_, ?_, rectangles_should_merge_symm _ _ hT vT⟩
  · simp only [rectangles_should_merge, Bool.and_eq_true, Bool.not_eq_true',
      Bool.or_eq_false_iff, decide_eq_false_iff_not]
    omega
  · intro hov
    simp only [rects_overlap_geometrically] at hov
    simp only [rectangles_should_merge, Bool.and_eq_true, Bool.not_eq_true',
      Bool.or_eq_false_iff, decide_eq_false_iff_not]
    omega

/-- Witness for C1 at concrete overlapping rectangles and thresholds 3, 4. -/
theorem C1_merge_predicate_spec_witness :
    (rectangles_should_merge (0, 0, 10, 10) (5, 5, 20, 20) 3 4 = true ↔
      (¬ ((10 : Int) < 5 - 3 ∨ (20 : Int) < 0 - 3) ∧
       ¬ ((10 : Int) < 5 - 4 ∨ (20 : Int) < 0 - 4))) ∧
    (rects_overlap_geometrically (0, 0, 10, 10) (5, 5, 20, 20) →
      rectangles_should_merge (0, 0, 10, 10) (5, 5, 20, 20) 3 4 = true) ∧
    rectangles_should_merge (0, 0, 10, 10) (5, 5, 20, 20) 3 4
      = rectangles_should_merge (5, 5, 20, 20) (0, 0, 10, 10) 3 4 :=
  C1_merge_predicate_spec 0 0 10 10 5 5 20 20 3 4 (by decide) (by decide)

/-- C7: on both extraction paths, the padded crop rectangle has its left and
top edges clamped to at least 0 and its right and bottom edges clamped to at
most the page width and height; in particular a candidate whose right edge
is at or beyond the page width ends up with its right edge exactly at the
page width after padding. -/
theorem C7_bounds_clamping (W H x1 y1 x2 y2 x y w h : Int) :
    (0 ≤ (clamp_annot_rect W H x1 y1 x2 y2).1 ∧
     0 ≤ (clamp_annot_rect W H x1 y1 x2 y2).2.1 ∧
     (clamp_annot_rect W H x1 y1 x2 y2).2.2.1 ≤ W ∧
     (clamp_annot_rect W H x1 y1 x2 y2).2.2.2 ≤ H) ∧
    (W ≤ x2 → (clamp_annot_rect W H x1 y1 x2 y2).2.2.1 = W) ∧
    (0 ≤ (clamp_color_rect W H x y w h).1 ∧
     0 ≤ (clamp_color_rect W H x y w h).2.1 ∧
     (clamp_color_rect W H x y w h).2.2.1 ≤ W ∧
     (clamp_color_rect W H x y w h).2.2.2 ≤ H) ∧
    (W ≤ x + w → (clamp_color_rect W H x y w h).2.2.1 = W) := by
  simp only [clamp_annot_rect, clamp_color_rect]
  omega

/-- Witness for C7: a 100-wide page and candidates reaching 50 beyond its
right edge clamp to exactly 100 on both paths. -/
theorem C7_bounds_clamping_witness :
    (clamp_annot_rect 100 200 20 20 150 30).2.2.1 = 100 ∧
    (clamp_color_rect 100 200 20 20 130 10).2.2.1 = 100 ∧
    0 ≤ (clamp_annot_rect 100 200 20 20 150 30).1 ∧
    0 ≤ (clamp_color_rect 100 200 20 20 130 10).2.1 :=
  ⟨(C7_bounds_clamping 100 200 20 20 150 30 20 20 130 10).2.1 (by decide),
   (C7_bounds_clamping 100 200 20 20 150 30 20 20 130 10).2.2.2 (by decide),
   (C7_bounds_clamping 100 200 20 20 150 30 20 20 130 10).1.1,
   (C7_bounds_clamping 100 200 20 20 150 30 20 20 130 10).2.2.1.2.1⟩

/-- C8: a clamped crop rectangle with zero width or zero height produces no
record: the metadata path emits `none` and the colour-detection path appends
nothing for that group, on either path silently skipping it. -/
theorem C8_zero_area_rejection (W H x1 y1 x2 y2 : Int) (pn ic : Nat)
    (ty : String) (x y w h : Int) (rects : List I4) (tyName : String)
    (si : Nat) (acc : List ExtractedItem) (rest : List I4) :
    ((clamp_annot_rect W H x1 y1 x2 y2).1
        = (clamp_annot_rect W H x1 y1 x2 y2).2.2.1 ∨
      (clamp_annot_rect W H x1 y1 x2 y2).2.1
        = (clamp_annot_rect W H x1 y1 x2 y2).2.2.2 →
      process_metadata_annotation W H pn ic ty x1 y1 x2 y2 = none) ∧
    ((clamp_color_rect W H x y w h).1 = (clamp_color_rect W H x y w h).2.2.1 ∨
      (clamp_color_rect W H x y w h).2.1
        = (clamp_color_rect W H x y w h).2.2.2 →
      emit_groups W H pn rects tyName si acc ((x, y, w, h) :: rest)
        = emit_groups W H pn rects tyName si acc rest) := by
  constructor
  · intro hz
    have hsz : region_size (clamp_annot_rect W H x1 y1 x2 y2) = 0 := by
      rcases hz with hz | hz
      · simp [region_size, ← hz]
      · simp [region_size, ← hz]
    simp [ process_metadata_annotation, hsz]
  · intro hz
    have hsz : region_size (clamp_color_rect W H x y w h) = 0 := by
      rcases hz with hz | hz
      · simp [region_size, ← hz]
      · simp [region_size, ← hz]
    simp [emit_groups, hsz]

/-- Witness for C8: on a 100-wide page, candidates lying wholly beyond the
right edge clamp to a zero-width crop and are skipped on both paths. -/
theorem C8_zero_area_rejection_witness :
    process_metadata_annotation 100 100 0 0 "Highlight" 110 20 150 40 = none ∧
    emit_groups 100 100 0 [] "yellow_highlight_group" 0 []
      [(115, 20, 30, 10)] = emit_groups 100 100 0 [] "yellow_highlight_group" 0 [] [] :=
  ⟨(C8_zero_area_rejection 100 100 110 20 150 40 0 0 "Highlight" 115 20 30 10
      [] "yellow_highlight_group" 0 [] []).1 (by decide),
   (C8_zero_area_rejection 100 100 110 20 150 40 0 0 "Highlight" 115 20 30 10
      [] "yellow_highlight_group" 0 [] []).2 (by decide)⟩

/-- C10: merging loses nothing: the empty input yields the empty output, and
every input rectangle is geometrically contained in the bounding box of some
returned group. -/
theorem C10_merge_covers_input (l : List I4) (hT vT : Int) :
    merge_nearby_rectangles [] hT vT = [] ∧
    ∀ r ∈ l, ∃ m ∈ merge_nearby_rectangles l hT vT, rect_contains m r := by
  refine ⟨rfl, ?_⟩
  intro r hr
  have hmem : to_corners r ∈ (merge_groups hT vT (l.map to_corners)).flatten :=
    (merge_groups_flatten_perm hT vT (l.map to_corners)).mem_iff.mpr
      (List.mem_map_of_mem to_corners hr)
  obtain ⟨G, hG, hrG⟩ := List.mem_flatten.mp hmem
  refine ⟨group_bbox G, List.mem_map_of_mem group_bbox hG, ?_⟩
  have hb := group_bbox_mem G (to_corners r) hrG
  obtain ⟨x, y, w, h⟩ := r
  simp only [to_corners] at hb
  exact ⟨hb.1, hb.2.1, hb.2.2.1, hb.2.2.2⟩

/-- Witness for C10 at a concrete singleton input. -/
theorem C10_merge_covers_input_witness :
    merge_nearby_rectangles [] 3 3 = [] ∧
    ∃ m ∈ merge_nearby_rectangles [((0 : Int), (0 : Int), (5 : Int), (5 : Int))] 3 3,
      rect_contains m (0, 0, 5, 5) :=
  ⟨(C10_merge_covers_input [((0 : Int), 0, 5, 5)] 3 3).1,
   (C10_merge_covers_input [((0 : Int), 0, 5, 5)] 3 3).2 (0, 0, 5, 5) (by decide)⟩

/-- C2: with A = (0,0)-(10,10), B = (25,0)-(35,10), C = (50,0)-(60,10) and
`horizontal_threshold = 20` (and any non-negative vertical threshold, the
three sharing one vertical extent), A merges with B and B with C under the
pairwise predicate, A does not merge directly with C, and
`merge_nearby_rectangles` still returns the single group (0,0)-(60,10):
connectivity through the intermediary is honoured. -/
theorem C2_transitivity_via_intermediary (vT : Int) (hvT : 0 ≤ vT) :
    rectangles_should_merge (0, 0, 10, 10) (25, 0, 35, 10) 20 vT = true ∧
    rectangles_should_merge (25, 0, 35, 10) (50, 0, 60, 10) 20 vT = true ∧
    rectangles_should_merge (0, 0, 10, 10) (50, 0, 60, 10) 20 vT = false ∧
    merge_nearby_rectangles [(0, 0, 10, 10), (25, 0, 10, 10), (50, 0, 10, 10)]
      20 vT = [(0, 0, 60, 10)] := by
  refine ⟨?_, ?_, ?_, ?_⟩
  · simp only [rectangles_should_merge, Bool.and_eq_true, Bool.not_eq_true',
      Bool.or_eq_false_iff, decide_eq_false_iff_not]
    omega
  · simp only [rectangles_should_merge, Bool.and_eq_true, Bool.not_eq_true',
      Bool.or_eq_false_iff, decide_eq_false_iff_not]
    omega
  · rw [Bool.eq_false_iff]
    simp only [ne_eq, rectangles_should_merge, Bool.and_eq_true,
      Bool.not_eq_true', Bool.or_eq_false_iff, decide_eq_false_iff_not]
    omega
  · have hagree : ∀ a ∈ ([(0, 0, 10, 10), (25, 0, 10, 10), (50, 0, 10, 10)]
          : List I4).map to_corners,
        ∀ b ∈ ([(0, 0, 10, 10), (25, 0, 10, 10), (50, 0, 10, 10)]
          : List I4).map to_corners,
        rectangles_should_merge a b 20 vT = rectangles_should_merge a b 20 50 := by
      intro a ha b hb
      simp only [List.map_cons, List.map_nil, to_corners, List.mem_cons,
        List.not_mem_nil, or_false] at ha hb
      rcases ha with rfl | rfl | rfl <;> rcases hb with rfl | rfl | rfl <;>
        (rw [Bool.eq_iff_iff]
         simp only [rectangles_should_merge, Bool.and_eq_true, Bool.not_eq_true',
           Bool.or_eq_false_iff, decide_eq_false_iff_not]
         omega)
    rw [merge_nearby_rectangles_congr _ 20 vT 20 50 hagree]
    decide

/-- Witness for C2 at the concrete vertical threshold 50. -/
theorem C2_transitivity_via_intermediary_witness :
    rectangles_should_merge (0, 0, 10, 10) (25, 0, 35, 10) 20 50 = true ∧
    rectangles_should_merge (25, 0, 35, 10) (50, 0, 60, 10) 20 50 = true ∧
    rectangles_should_merge (0, 0, 10, 10) (50, 0, 60, 10) 20 50 = false ∧
    merge_nearby_rectangles [(0, 0, 10, 10), (25, 0, 10, 10), (50, 0, 10, 10)]
      20 50 = [(0, 0, 60, 10)] :=
  C2_transitivity_via_intermediary 50 (by decide)

/-- C3 counterexample: on the 900x1200 page with exactly the two yellow
candidates (100,100)-(150,120) and (160,100)-(210,120), the emitted record's
coordinates are (85,85)-(225,135) — the 15px padding applies on both axes —
and not the claimed (90,85)-(220,135). -/
theorem C3_end_to_end_counterexample :
    (extract_by_color_detection 900 1200 0 0
        [(100, 100, 50, 20), (160, 100, 50, 20)] [] true true).map
        (fun it => it.coordinates) = [(85, 85, 225, 135)] ∧
    ¬ ((85, 85, 225, 135) : I4) = ((90, 85, 220, 135) : I4) :=
  ⟨by decide, by decide⟩

/-- C3 amended: the two candidates merge into the single group
(100,100)-(210,120), and after 15px padding and clamping the emitted record
has coordinates (85,85)-(225,135) with `individual_regions = 2`. -/
theorem C3_end_to_end_amended :
    merge_nearby_rectangles [(100, 100, 50, 20), (160, 100, 50, 20)] 100 50
      = [(100, 100, 110, 20)] ∧
    extract_by_color_detection 900 1200 0 0
        [(100, 100, 50, 20), (160, 100, 50, 20)] [] true true
      = [{ page := 1, type := "yellow_highlight_group",
           filename := "page_1_yellow_highlight_group_1.png",
           coordinates := (85, 85, 225, 135), individual_regions := 2 }] :=
  ⟨by decide, by decide⟩

/-- C4 counterexample: the three rectangles below produce two groups whose
bounding boxes do satisfy the merge predicate (an L-shaped group's box
covers a rectangle none of its members merges with), so feeding the output
back merges further. -/
theorem C4_idempotence_counterexample :
    merge_nearby_rectangles [(0, 20, 10, 10), (5, 25, 25, 25), (20, 0, 5, 22)]
      0 0 = [(0, 20, 30, 30), (20, 0, 5, 22)] ∧
    rectangles_should_merge (to_corners (0, 20, 30, 30))
      (to_corners (20, 0, 5, 22)) 0 0 = true ∧
    merge_nearby_rectangles (merge_nearby_rectangles
        [(0, 20, 10, 10), (5, 25, 25, 25), (20, 0, 5, 22)] 0 0) 0 0
      ≠ merge_nearby_rectangles
        [(0, 20, 10, 10), (5, 25, 25, 25), (20, 0, 5, 22)] 0 0 :=
  ⟨by decide, by decide, by decide⟩

/-- C4 amended: re-merging the output fixes it only when no two output
bounding boxes satisfy the merge predicate; under that proviso a second pass
returns the groups unchanged (in general the transitive-closure edge case of
the counterexample can merge output groups further). -/
theorem C4_idempotence_amended (l : List I4) (hT vT : Int)
    (h : (merge_nearby_rectangles l hT vT).Pairwise (fun a b =>
      rectangles_should_merge (to_corners a) (to_corners b) hT vT = false)) :
    merge_nearby_rectangles (merge_nearby_rectangles l hT vT) hT vT
      = merge_nearby_rectangles l hT vT :=
  merge_nearby_no_merge_id hT vT _ h

/-- Witness for C4 on an input whose two groups are far apart. -/
theorem C4_idempotence_amended_witness :
    (merge_nearby_rectangles [(0, 0, 10, 10), (100, 100, 10, 10)] 5 5).Pairwise
      (fun a b =>
        rectangles_should_merge (to_corners a) (to_corners b) 5 5 = false) ∧
    merge_nearby_rectangles
        (merge_nearby_rectangles [(0, 0, 10, 10), (100, 100, 10, 10)] 5 5) 5 5
      = merge_nearby_rectangles [(0, 0, 10, 10), (100, 100, 10, 10)] 5 5 :=
  ⟨by decide,
   C4_idempotence_amended [(0, 0, 10, 10), (100, 100, 10, 10)] 5 5 (by decide)⟩

/-- C5: `merge_nearby_rectangles` is deterministic and order-insensitive: a
repeated run gives the same output, and on any reordering of the input it
produces the same multiset of group bounding boxes, with the same member
count per group. -/
theorem C5_determinism_order_invariance (l l' : List I4) (hT vT : Int)
    (hp : l.Perm l') :
    merge_nearby_rectangles l hT vT = merge_nearby_rectangles l hT vT ∧
    (↑(merge_nearby_rectangles l hT vT) : Multiset I4)
      = ↑(merge_nearby_rectangles l' hT vT) ∧
    (↑((merge_groups hT vT (l.map to_corners)).map
        (fun g => (group_bbox g, g.length))) : Multiset (I4 × Nat))
      = ↑((merge_groups hT vT (l'.map to_corners)).map
          (fun g => (group_bbox g, g.length))) := by
  have hMS := merge_groups_perm hT vT (l.map to_corners) (l'.map to_corners)
    (hp.map to_corners)
  refine ⟨rfl, ?_, ?_⟩
  · show (↑((merge_groups hT vT (l.map to_corners)).map group_bbox)
        : Multiset I4)
      = ↑((merge_groups hT vT (l'.map to_corners)).map group_bbox)
    exact map_of_groupMS_eq group_bbox (fun g g' h => group_bbox_perm h) _ _ hMS
  · exact map_of_groupMS_eq (fun g => (group_bbox g, g.length))
      (fun g g' h => by
        show (group_bbox g, g.length) = (group_bbox g', g'.length)
        rw [group_bbox_perm h, h.length_eq]) _ _ hMS

/-- Witness for C5 on a two-element list and its reversal. -/
theorem C5_determinism_order_invariance_witness :
    merge_nearby_rectangles [((0 : Int), 0, 5, 5), (100, 0, 5, 5)] 10 10
      = merge_nearby_rectangles [((0 : Int), 0, 5, 5), (100, 0, 5, 5)] 10 10 ∧
    (↑(merge_nearby_rectangles [((0 : Int), 0, 5, 5), (100, 0, 5, 5)] 10 10)
        : Multiset I4)
      = ↑(merge_nearby_rectangles [((100 : Int), 0, 5, 5), (0, 0, 5, 5)] 10 10) ∧
    (↑((merge_groups 10 10
        (([((0 : Int), 0, 5, 5), (100, 0, 5, 5)] : List I4).map to_corners)).map
        (fun g => (group_bbox g, g.length))) : Multiset (I4 × Nat))
      = ↑((merge_groups 10 10
          (([((100 : Int), 0, 5, 5), (0, 0, 5, 5)] : List I4).map to_corners)).map
          (fun g => (group_bbox g, g.length))) :=
  C5_determinism_order_invariance [((0 : Int), 0, 5, 5), (100, 0, 5, 5)]
    [((100 : Int), 0, 5, 5), (0, 0, 5, 5)] 10 10 (by decide)

/-- C6 counterexample: an `Ink` annotation with no stroke colour but a pure
red fill colour is NOT extracted by the source (its Ink/FreeText path reads
`colors.get("stroke", [0, 0, 0])`, never consulting the fill colour), while
the claimed stroke-then-fill-then-black rule would classify it red and
extract it. -/
theorem C6_color_fallback_counterexample :
    should_extract_annotation "Ink" none (some [1, 0, 0]) true true = false ∧
    should_extract_annotation_claimed "Ink" none (some [1, 0, 0]) true true
      = true := by
  have h1 : ¬ ("Ink" ∈ (["Highlight", "Squiggly", "StrikeOut", "Underline"]
      : List String)) := by decide
  have h2 : "Ink" ∈ (["Ink", "FreeText"] : List String) := by decide
  constructor
  · simp only [ should_extract_annotation, if_neg h1, if_pos h2]
    norm_num
  · simp only [ should_extract_annotation_claimed, if_neg h1, if_pos h2]
    norm_num

/-- C6 amended: on the Highlight/Squiggly/StrikeOut/Underline path the
classification colour is stroke, else fill, else opaque black; on the
Ink/FreeText path it is stroke, else opaque black — the fill colour is never
consulted there. -/
theorem C6_color_fallback (annot_type : String) (c : List ℚ)
    (stroke fill fill' : Option (List ℚ)) (eh ew : Bool) :
    (annot_type = "Highlight" ∨ annot_type = "Squiggly" ∨
        annot_type = "StrikeOut" ∨ annot_type = "Underline" →
      should_extract_annotation annot_type (some c) fill eh ew
          = should_extract_annotation annot_type (some c) fill' eh ew ∧
      should_extract_annotation annot_type none (some c) eh ew
          = should_extract_annotation annot_type (some c) none eh ew ∧
      should_extract_annotation annot_type none none eh ew = false) ∧
    (annot_type = "Ink" ∨ annot_type = "FreeText" →
      should_extract_annotation annot_type stroke fill eh ew
          = should_extract_annotation annot_type stroke fill' eh ew ∧
      should_extract_annotation annot_type none fill eh ew = false) := by
  constructor
  · intro hty
    have hmem : annot_type ∈ (["Highlight", "Squiggly", "StrikeOut",
        "Underline"] : List String) := by simpa using hty
    refine ⟨?_, ?_, ?_⟩
    · simp only [ should_extract_annotation, if_pos hmem, Option.getD_some]
    · simp only [ should_extract_annotation, if_pos hmem, Option.getD_some,
        Option.getD_none]
    · simp only [ should_extract_annotation, if_pos hmem, Option.getD_none]
      cases eh
      · simp
      · norm_num
  · intro hty
    have hnot : ¬ (annot_type ∈ (["Highlight", "Squiggly", "StrikeOut",
        "Underline"] : List String)) := by
      rcases hty with rfl | rfl <;> decide
    have hmem : annot_type ∈ (["Ink", "FreeText"] : List String) := by
      simpa using hty
    refine ⟨?_, ?_⟩
    · simp only [ should_extract_annotation, if_neg hnot, if_pos hmem]
    · simp only [ should_extract_annotation, if_neg hnot, if_pos hmem,
        Option.getD_none]
      cases ew
      · simp
      · norm_num

/-- Witness for C6 at concrete colours: fill substitutes for a missing
stroke on the highlight path, both-missing defaults to black (no extract),
and on the Ink path a red fill is ignored. -/
theorem C6_color_fallback_witness :
    ( should_extract_annotation "Highlight" (some [1, 1, 0]) (some [0, 0, 0])
        true true
      = should_extract_annotation "Highlight" (some [1, 1, 0]) none true true) ∧
    should_extract_annotation "Highlight" none none true true = false ∧
    ( should_extract_annotation "Ink" none (some [1, 0, 0]) true true
      = should_extract_annotation "Ink" none none true true) ∧
    should_extract_annotation "Ink" none (some [1, 0, 0]) true true = false :=
  ⟨((C6_color_fallback "Highlight" [1, 1, 0] none (some [0, 0, 0]) none
      true true).1 (Or.inl rfl)).1,
   ((C6_color_fallback "Highlight" [1, 1, 0] none (some [0, 0, 0]) none
      true true).1 (Or.inl rfl)).2.2,
   ((C6_color_fallback "Ink" [1, 0, 0] none (some [1, 0, 0]) none
      true true).2 (Or.inl rfl)).1,
   ((C6_color_fallback "Ink" [1, 0, 0] none (some [1, 0, 0]) none
      true true).2 (Or.inl rfl)).2⟩

/-- Every record appended by the per-category emission loop either was
already in the accumulator or is a record of this category: its type string
is this category's, its coordinates are the padded clamp of one of this
category's merged groups, and its region count is computed against this
category's candidate list only. -/
theorem emit_groups_mem (W H : Int) (pn : Nat) (rects : List I4) (ty : String)
    (si : Nat) :
    ∀ (merged : List I4) (acc : List ExtractedItem),
      ∀ it ∈ emit_groups W H pn rects ty si acc merged,
        it ∈ acc ∨
        (it.type = ty ∧ ∃ g ∈ merged,
          it.coordinates = clamp_color_rect W H g.1 g.2.1 g.2.2.1 g.2.2.2 ∧
          it.individual_regions
            = (rects.filter (fun r => rectangles_overlap g r)).length) := by
  intro merged
  induction merged with
  | nil =>
    intro acc it hit
    exact Or.inl (by simpa [emit_groups] using hit)
  | cons g rest ih =>
    intro acc it hit
    obtain ⟨x, y, w, h⟩ := g
    simp only [emit_groups] at hit
    by_cases hc : 0 < region_size (clamp_color_rect W H x y w h)
    · rw [if_pos hc] at hit
      rcases ih _ it hit with hacc | hres
      · rcases List.mem_append.mp hacc with h1 | h2
        · exact Or.inl h1
        · right
          have hiteq := List.mem_singleton.mp h2
          rw [hiteq]
          exact ⟨rfl, (x, y, w, h), by simp, rfl, rfl⟩
      · right
        obtain ⟨hty, g', hg', hco⟩ := hres
        exact ⟨hty, g', List.mem_cons_of_mem _ hg', hco⟩
    · rw [if_neg hc] at hit
      rcases ih _ it hit with h1 | h2
      · exact Or.inl h1
      · right
        obtain ⟨hty, g', hg', hco⟩ := h2
        exact ⟨hty, g', List.mem_cons_of_mem _ hg', hco⟩

/-- C9: every record emitted by `extract_by_color_detection` belongs to
exactly one category: its group bounding box comes from merging only that
category's candidates (yellow with thresholds 100/50, red with 80/40), and
its `individual_regions` counts only that category's candidates — so a
yellow candidate and a red candidate are never placed in the same merged
group, even with identical coordinates. -/
theorem C9_category_isolation (W H : Int) (pn si : Nat) (yr rr : List I4)
    (eh ew : Bool) :
    ∀ it ∈ extract_by_color_detection W H pn si yr rr eh ew,
      (it.type = "yellow_highlight_group" ∧
        ∃ g ∈ merge_nearby_rectangles yr 100 50,
          it.coordinates = clamp_color_rect W H g.1 g.2.1 g.2.2.1 g.2.2.2 ∧
          it.individual_regions
            = (yr.filter (fun r => rectangles_overlap g r)).length) ∨
      (it.type = "red_mark_group" ∧
        ∃ g ∈ merge_nearby_rectangles rr 80 40,
          it.coordinates = clamp_color_rect W H g.1 g.2.1 g.2.2.1 g.2.2.2 ∧
          it.individual_regions
            = (rr.filter (fun r => rectangles_overlap g r)).length) := by
  have hyellow : ∀ it ∈ (if eh then emit_groups W H pn yr
      "yellow_highlight_group" si [] (merge_nearby_rectangles yr 100 50)
      else []),
      it.type = "yellow_highlight_group" ∧
      ∃ g ∈ merge_nearby_rectangles yr 100 50,
        it.coordinates = clamp_color_rect W H g.1 g.2.1 g.2.2.1 g.2.2.2 ∧
        it.individual_regions
          = (yr.filter (fun r => rectangles_overlap g r)).length := by
    intro it hit
    cases eh with
    | false => simp at hit
    | true =>
      simp only [if_true] at hit
      rcases emit_groups_mem W H pn yr "yellow_highlight_group" si _ [] it hit
        with h1 | h2
      · simp at h1
      · exact h2
  intro it hit
  simp only [extract_by_color_detection] at hit
  cases ew with
  | false =>
    simp only [Bool.false_eq_true, if_false] at hit
    exact Or.inl (hyellow it hit)
  | true =>
    simp only [if_true] at hit
    rcases emit_groups_mem W H pn rr "red_mark_group" si _ _ it hit with h1 | h2
    · exact Or.inl (hyellow it h1)
    · exact Or.inr h2

/-- Witness for C9: identical yellow and red candidates on one page produce
two separate one-category records, never one merged group. -/
theorem C9_category_isolation_witness :
    (({ page := 1, type := "yellow_highlight_group",
        filename := "page_1_yellow_highlight_group_1.png",
        coordinates := ((0 : Int), 0, 45, 45), individual_regions := 1 }
          : ExtractedItem).type = "yellow_highlight_group" ∧
      ∃ g ∈ merge_nearby_rectangles [((0 : Int), 0, 30, 30)] 100 50,
        ({ page := 1, type := "yellow_highlight_group",
           filename := "page_1_yellow_highlight_group_1.png",
           coordinates := ((0 : Int), 0, 45, 45), individual_regions := 1 }
             : ExtractedItem).coordinates
          = clamp_color_rect 100 100 g.1 g.2.1 g.2.2.1 g.2.2.2 ∧
        ({ page := 1, type := "yellow_highlight_group",
           filename := "page_1_yellow_highlight_group_1.png",
           coordinates := ((0 : Int), 0, 45, 45), individual_regions := 1 }
             : ExtractedItem).individual_regions
          = (([((0 : Int), 0, 30, 30)] : List I4).filter
              (fun r => rectangles_overlap g r)).length) ∨
    (({ page := 1, type := "yellow_highlight_group",
        filename := "page_1_yellow_highlight_group_1.png",
        coordinates := ((0 : Int), 0, 45, 45), individual_regions := 1 }
          : ExtractedItem).type = "red_mark_group" ∧
      ∃ g ∈ merge_nearby_rectangles [((0 : Int), 0, 30, 30)] 80 40,
        ({ page := 1, type := "yellow_highlight_group",
           filename := "page_1_yellow_highlight_group_1.png",
           coordinates := ((0 : Int), 0, 45, 45), individual_regions := 1 }
             : ExtractedItem).coordinates
          = clamp_color_rect 100 100 g.1 g.2.1 g.2.2.1 g.2.2.2 ∧
        ({ page := 1, type := "yellow_highlight_group",
           filename := "page_1_yellow_highlight_group_1.png",
           coordinates := ((0 : Int), 0, 45, 45), individual_regions := 1 }
             : ExtractedItem).individual_regions
          = (([((0 : Int), 0, 30, 30)] : List I4).filter
              (fun r => rectangles_overlap g r)).length) :=
  C9_category_isolation 100 100 0 0 [((0 : Int), 0, 30, 30)]
    [((0 : Int), 0, 30, 30)] true true
    { page := 1, type := "yellow_highlight_group",
      filename := "page_1_yellow_highlight_group_1.png",
      coordinates := ((0 : Int), 0, 45, 45), individual_regions := 1 }
    (by decide)
